import Mathlib

/-!
Verification of the linkedevents events API layer (`events/api.py`).

The Python source is shallowly embedded: every definition below is a direct
translation of a function (or the relevant slice of a class) from
`events/api.py`.  Machine-level concerns do not arise (Python integers are
unbounded), so numbers are `Nat`/`Int`.  Ambient inputs of the code (the
current clock, the configured language list, the third-party `dateutil`
parser) become explicit parameters.  Fallible code returns `Option`/`Except`
or a dedicated result type; a Python exception that the code does not raise
deliberately (e.g. an `UnboundLocalError` or a `KeyError`) is a distinct
constructor so that crashes are visible in the model.
-/

/-! ## Small string helpers (Python `str.strip`, `str.lower`, `\d`, `\s`)

Restricted to the ASCII repertoire that the claims exercise: Python's
`\d`/`\s`/`lower` also cover further Unicode characters, which never occur
in the inputs considered here. -/

/-- Python `\s` (ASCII part): space, tab, newline, carriage return,
vertical tab, form feed. -/
def isPySpace (c : Char) : Bool :=
  c = ' ' || c = '\t' || c = '\n' || c = '\r' || c = '\x0b' || c = '\x0c'

/-- ASCII decimal digit, Python `\d` (ASCII part). -/
def isPyDigit (c : Char) : Bool :=
  '0' ≤ c && c ≤ '9'

/-- Python `str.strip()`: remove leading and trailing whitespace. -/
def pyStrip (l : List Char) : List Char :=
  ((l.dropWhile isPySpace).reverse.dropWhile isPySpace).reverse

/-- Python `str.lower()` (ASCII part). -/
def pyLower (l : List Char) : List Char :=
  l.map fun c => if 'A' ≤ c && c ≤ 'Z' then Char.ofNat (c.toNat + 32) else c

/-- Digit string to number, as Python `int()` on a digit-only string. -/
def digitsToNat (l : List Char) : Nat :=
  l.foldl (fun acc c => 10 * acc + (c.toNat - 48)) 0

/-! ## `parse_duration` (api.py lines 790-805)

```python
def parse_duration(duration):
    m = re.match(r'(\d+)\s*(d|h|m|s)?$', duration.strip().lower())
    if not m:
        raise ParseError("Invalid duration supplied. Try '1d' or '2h'.")
    val, unit = m.groups()
    if not unit:
        unit = 's'

    if unit == 'm':
        mul = 60
    elif unit == 'h':
        mul = 3600
    elif unit == 'd':
        mul = 24 * 3600

    return int(val) * mul
```

Note the `if`/`elif` chain has no branch for `unit == 's'`: in that case the
local `mul` is never assigned and `int(val) * mul` raises
`UnboundLocalError`.  The model records that crash as `.crash`. -/

/-- Match of the regex `(\d+)\s*(d|h|m|s)?$` against a whole (stripped,
lowered) string: one-or-more digits, optional whitespace, an optional unit
letter, end of input.  Returns the digit group and the optional unit. -/
def matchDurationRe (l : List Char) : Option (List Char × Option Char) :=
  let digits := l.takeWhile isPyDigit
  let rest := l.dropWhile isPyDigit
  if digits.isEmpty then none
  else
    match rest.dropWhile isPySpace with
    | [] => some (digits, none)
    | [u] =>
      if u = 'd' || u = 'h' || u = 'm' || u = 's' then some (digits, some u)
      else none
    | _ => none

/-- Result of `parse_duration`: a value in seconds, the deliberate
`ParseError` (a 4xx client error), or the accidental `UnboundLocalError`
crash (a 5xx server error). -/
inductive DurationResult where
  | ok (seconds : Nat)
  | parseError
  | crash
  deriving DecidableEq, Repr

/-- Function `parse_duration` from api.py.  The `s` unit (explicit or defaulted)
falls through the `if`/`elif` chain without assigning `mul`, so
`int(val) * mul` raises `UnboundLocalError`: modelled as `.crash`. -/
def parse_duration (duration : String) : DurationResult :=
  match matchDurationRe (pyLower (pyStrip duration.toList)) with
  | none => .parseError
  | some (val, unit) =>
    let unit := unit.getD 's'
    if unit = 'm' then .ok (digitsToNat val * 60)
    else if unit = 'h' then .ok (digitsToNat val * 3600)
    else if unit = 'd' then .ok (digitsToNat val * (24 * 3600))
    else .crash

/-! ## Event start/end filtering (api.py lines 836-844)

```python
    val = params.get('start', None)
    if val:
        dt = parse_time(val, is_start=True)
        queryset = queryset.filter(Q(end_time__gt=dt) | Q(start_time__gte=dt))

    val = params.get('end', None)
    if val:
        dt = parse_time(val, is_start=False)
        queryset = queryset.filter(Q(end_time__lt=dt) | Q(start_time__lte=dt))
```

Events are modelled by their two timestamps on an integer timeline; a
queryset is a list of events and `.filter` keeps the events satisfying the
`Q` disjunction. -/

/-- An event as seen by the start/end filters: its two timestamps. -/
structure EventT where
  start_time : Int
  end_time : Int
  deriving DecidableEq, Repr

/-- The `start=X` predicate: `Q(end_time__gt=dt) | Q(start_time__gte=dt)`. -/
def startParamPred (x : Int) (e : EventT) : Bool :=
  e.end_time > x || e.start_time ≥ x

/-- The `end=Y` predicate: `Q(end_time__lt=dt) | Q(start_time__lte=dt)`. -/
def endParamPred (y : Int) (e : EventT) : Bool :=
  e.end_time < y || e.start_time ≤ y

/-- Applying both the `start=X` and the `end=Y` filter of
`_filter_event_queryset` to a queryset, in the source's order. -/
def filterStartEnd (x y : Int) (queryset : List EventT) : List EventT :=
  (queryset.filter (startParamPred x)).filter (endParamPred y)

/-- Spec-side notion for C4: the closed interval `[start_time, end_time]`
meets the half-open interval `[x, y)`. -/
def intersectsHalfOpen (e : EventT) (x y : Int) : Prop :=
  ∃ t : Int, e.start_time ≤ t ∧ t ≤ e.end_time ∧ x ≤ t ∧ t < y

/-- Spec-side notion for the amended C4: the closed interval
`[start_time, end_time]` meets the closed interval `[x, y]`. -/
def intersectsClosed (e : EventT) (x y : Int) : Prop :=
  ∃ t : Int, e.start_time ≤ t ∧ t ≤ e.end_time ∧ x ≤ t ∧ t ≤ y

/-! ## `ISO8601DurationField` (api.py lines 189-207)

```python
class ISO8601DurationField(serializers.Field):
    def to_representation(self, obj):
        if obj:
            d = Duration(milliseconds=obj)
            return duration_isoformat(d)
        else:
            return None

    def to_internal_value(self, data):
        if data:
            value = parse_duration(data)
            return (
                value.days * 24 * 3600 * 1000000
                + value.seconds * 1000
                + value.microseconds / 1000
            )
        else:
            return 0
```

The stored value is a duration in milliseconds.  `isodate.Duration`
normalises through `datetime.timedelta` into (days, seconds, microseconds);
`duration_isoformat` renders that triple as an ISO-8601 string and
`isodate.parse_duration` parses it back to the same `timedelta` (the two
library functions are mutually inverse on day/second/microsecond
durations), so the ISO string is modelled by the `Timedelta` triple it
denotes. -/

/-- Python `datetime.timedelta` normal form: `0 ≤ seconds < 86400`,
`0 ≤ microseconds < 10^6`. -/
structure Timedelta where
  days : Nat
  seconds : Nat
  microseconds : Nat
  deriving DecidableEq, Repr

/-- Normalisation `timedelta(milliseconds=v)` for `v ≥ 0`: normalise `v * 1000`
microseconds into days / seconds / microseconds. -/
def timedeltaOfMilliseconds (v : Nat) : Timedelta :=
  let totalUs := v * 1000
  { days := totalUs / 86400000000
    seconds := totalUs % 86400000000 / 1000000
    microseconds := totalUs % 1000000 }

/-- Method `ISO8601DurationField.to_representation`: the produced ISO string,
modelled by the `Timedelta` it denotes (`None` for a falsy value). -/
def ISO8601DurationField_to_representation (obj : Nat) : Option Timedelta :=
  if obj ≠ 0 then some (timedeltaOfMilliseconds obj) else none

/-- Method `ISO8601DurationField.to_internal_value`: parse the ISO string (modelled
by the `Timedelta` it denotes) and recombine the components.  The division
`microseconds / 1000` is exact on every value the field itself produced. -/
def ISO8601DurationField_to_internal_value (data : Option Timedelta) : Nat :=
  match data with
  | none => 0
  | some value =>
    value.days * 24 * 3600 * 1000000 + value.seconds * 1000 + value.microseconds / 1000

/-- The round trip of C9: store a millisecond count, render it, parse it
back. -/
def durationFieldRoundTrip (v : Nat) : Nat :=
  ISO8601DurationField_to_internal_value (ISO8601DurationField_to_representation v)

/-! ## Dates, datetimes and `parse_time` (api.py lines 730-756)

```python
def parse_time(time_str, is_start):
    time_str = time_str.strip()
    try:
        dt = datetime.strptime(time_str, '%Y-%m-%d')
        dt = LOCAL_TZ.localize(dt)
    except ValueError:
        dt = None
    if not dt:
        if time_str.lower() == 'today':
            dt = datetime.utcnow().replace(tzinfo=pytz.utc)
            dt = dt.astimezone(LOCAL_TZ)
            dt = dt.replace(hour=0, minute=0, second=0, microsecond=0)
    if dt:
        if not is_start:
            dt = dt + timedelta(days=1)
    else:
        try:
            dt = dateutil_parse(time_str)
        except (TypeError, ValueError):
            raise ParseError('time in invalid format (try ISO 8601 or yyyy-mm-dd)')
    return dt
```

The ambient clock enters only through
`datetime.utcnow().replace(tzinfo=pytz.utc).astimezone(LOCAL_TZ)`, which is
passed in as the parameter `nowLocal`; the third-party `dateutil.parser.parse`
is passed in as an oracle `dateutilParse` returning `none` where the library
raises `TypeError`/`ValueError`.  Adding `timedelta(days=1)` to a
`pytz`-localized datetime advances the calendar day without renormalising
the offset, i.e. it is plain calendar arithmetic on the date. -/

/-- A calendar date. -/
structure Date where
  year : Nat
  month : Nat
  day : Nat
  deriving DecidableEq, Repr

/-- Gregorian leap year. -/
def isLeapYear (y : Nat) : Bool :=
  (y % 4 = 0 && y % 100 ≠ 0) || y % 400 = 0

/-- Number of days of a month. -/
def daysInMonth (y m : Nat) : Nat :=
  if m = 2 then (if isLeapYear y then 29 else 28)
  else if m = 4 || m = 6 || m = 9 || m = 11 then 30
  else 31

/-- Successor day, `date + timedelta(days=1)`. -/
def nextDay (d : Date) : Date :=
  if d.day < daysInMonth d.year d.month then ⟨d.year, d.month, d.day + 1⟩
  else if d.month < 12 then ⟨d.year, d.month + 1, 1⟩
  else ⟨d.year + 1, 1, 1⟩

/-- Timezone tag of a datetime: `pytz.utc`, the configured `LOCAL_TZ`, a
naive datetime, or some other fixed offset (as produced by `dateutil`). -/
inductive TZ where
  | utc
  | local
  | naive
  | offsetMinutes (m : Int)
  deriving DecidableEq, Repr

/-- A Python `datetime`. -/
structure DT where
  date : Date
  hour : Nat
  minute : Nat
  second : Nat
  microsecond : Nat
  tz : TZ
  deriving DecidableEq, Repr

/-- Parser `datetime.strptime(s, '%Y-%m-%d')`: exactly four digits, `-`, a one- or
two-digit month in 1..12, `-`, a one- or two-digit day, nothing else; the
`datetime` constructor then requires `1 ≤ year` and a day that exists in the
month. -/
def strptimeYmd (l : List Char) : Option Date :=
  match l with
  | c1 :: c2 :: c3 :: c4 :: '-' :: rest =>
    if isPyDigit c1 && isPyDigit c2 && isPyDigit c3 && isPyDigit c4 then
      let y := digitsToNat [c1, c2, c3, c4]
      let mDigits := rest.takeWhile isPyDigit
      let restM := rest.dropWhile isPyDigit
      if mDigits.length = 0 || mDigits.length > 2 then none
      else
        let m := digitsToNat mDigits
        if m < 1 || 12 < m then none
        else
          match restM with
          | '-' :: restD =>
            let dDigits := restD.takeWhile isPyDigit
            let restEnd := restD.dropWhile isPyDigit
            if dDigits.length = 0 || dDigits.length > 2 then none
            else
              let d := digitsToNat dDigits
              if restEnd.isEmpty && 1 ≤ d && d ≤ daysInMonth y m && 1 ≤ y then
                some ⟨y, m, d⟩
              else none
          | _ => none
    else none
  | _ => none

/-- Result of `parse_time`: a datetime, or the
`ParseError('time in invalid format (try ISO 8601 or yyyy-mm-dd)')`. -/
inductive ParseTimeResult where
  | ok (dt : DT)
  | parseError
  deriving DecidableEq, Repr

/-- Function `parse_time` from api.py.  `dateutilParse` is the `dateutil` parser
oracle, `nowLocal` the current instant already converted to `LOCAL_TZ`. -/
def parse_time (dateutilParse : String → Option DT) (nowLocal : DT)
    (time_str : String) (is_start : Bool) : ParseTimeResult :=
  let t := pyStrip time_str.toList
  let dt0 : Option DT :=
    match strptimeYmd t with
    | some d => some ⟨d, 0, 0, 0, 0, .local⟩
    | none =>
      if pyLower t = "today".toList then
        some { nowLocal with hour := 0, minute := 0, second := 0, microsecond := 0 }
      else none
  match dt0 with
  | some dt => .ok (if is_start then dt else { dt with date := nextDay dt.date })
  | none =>
    match dateutilParse (String.mk t) with
    | some dt => .ok dt
    | none => .parseError

/-! ## Python values and association-list dicts

Python dicts (with their insertion-order semantics: assigning an existing
key replaces in place, a new key is appended) are modelled as association
lists with unique keys.  `PyVal` covers the value shapes the modelled code
stores in them; a nested translation mapping maps language codes to an
optional string (`none` is Python `None`). -/

/-- A Python value as used in the modelled payload dicts. -/
inductive PyVal where
  | s (v : String)
  | b (v : Bool)
  | null
  | m (entries : List (String × Option String))
  deriving DecidableEq, Repr

/-- Python truthiness of a `PyVal`. -/
def pyTruthy : PyVal → Bool
  | .s v => v ≠ ""
  | .b v => v
  | .null => false
  | .m entries => !entries.isEmpty

/-- Dict lookup (`d.get(k)` / `k in d`). -/
def alget {α : Type} : List (String × α) → String → Option α
  | [], _ => none
  | (k', v') :: t, k => if k' = k then some v' else alget t k

/-- Dict assignment `d[k] = v`: replace in place or append. -/
def alset {α : Type} : List (String × α) → String → α → List (String × α)
  | [], k, v => [(k, v)]
  | (k', v') :: t, k, v => if k' = k then (k, v) :: t else (k', v') :: alset t k v

/-- Dict deletion `del d[k]`. -/
def aldel {α : Type} (d : List (String × α)) (k : String) : List (String × α) :=
  d.filter (fun kv => kv.1 ≠ k)

/-- Dict merge `d.update(other)`: assign every entry of `other` in order. -/
def alupdate {α : Type} (d other : List (String × α)) : List (String × α) :=
  other.foldl (fun d kv => alset d kv.1 kv.2) d

theorem alget_alset_self {α : Type} (d : List (String × α)) (k : String) (v : α) :
    alget (alset d k v) k = some v := by
  induction d with
  | nil => simp [alget, alset]
  | cons hd t ih =>
    by_cases h : hd.1 = k
    · simp [alset, alget, h]
    · simp [alset, alget, h, ih]

theorem alget_alset_ne {α : Type} (d : List (String × α)) (k k' : String) (v : α)
    (h : k' ≠ k) : alget (alset d k v) k' = alget d k' := by
  induction d with
  | nil => simp [alget, alset, Ne.symm h]
  | cons hd t ih =>
    obtain ⟨k0, v0⟩ := hd
    simp only [alset]
    by_cases hh : k0 = k
    · subst hh
      simp [alget, Ne.symm h]
    · simp [alget, hh, ih]

/-! ## `TranslatedModelSerializer` (api.py lines 218-330)

Encode, `to_internal_value` (lines 256-308): for each translatable field
whose payload entry is a present, non-`None` nested mapping,

```python
            values = data[field_name].copy()  # Save original values

            key = "%s_%s" % (field_name, lang)          # lang = default language
            val = data[field_name].get(lang)
            if val:
                values[key] = val  # field_name_LANG
                values[field_name] = val  # field_name
            if lang in values:
                del values[lang]  # Remove original key LANG
            for lang in [x[0] for x in settings.LANGUAGES[1:]]:
                key = "%s_%s" % (field_name, lang)
                val = data[field_name].get(lang)
                if val:
                    values[key] = val  # field_name_LANG
                    values[field_name] = val  # field_name
                if lang in values:
                    del values[lang]  # Remove original key LANG
            data.update(values)
            del data[field_name]  # Remove original field_name from data
```

then `data.update(super().to_internal_value(data))`.  The superclass call
(the framework `ModelSerializer`) can only contribute non-translated
declared fields — the translated keys were deleted from `self.fields` in
`__init__` (lines 231-236) — so it never touches the keys modelled here and
is elided.  The configured language list (first entry = default) is the
parameter `langs`; the serializer's translatable field names are
`translated_fields`.

Decode, `translated_fields_to_representation` (lines 310-330): for each
translatable field build `d` from the per-language storage (the bare field
for the default language, `field_<lang>` for the rest, skipping `None`),
collapse an all-`None` `d` to `None`, and store it under the bare field
name in the outgoing representation. -/

/-- One language step of the encoder: the shared body of the default-language
block and of each iteration of the `for lang in LANGUAGES[1:]` loop.
`inner` is the original nested mapping `data[field_name]` (lookups read the
saved original, not the mutated copy). -/
def translatedUpdateStep (inner : List (String × Option String))
    (field_name lang : String) (values : List (String × Option String)) :
    List (String × Option String) :=
  let key := field_name ++ "_" ++ lang
  let values :=
    match alget inner lang with
    | some (some v) =>
      if v ≠ "" then alset (alset values key (some v)) field_name (some v)
      else values
    | _ => values
  if (alget values lang).isSome then aldel values lang else values

/-- Encoder body for one translatable field.  A payload entry that is
present but neither a mapping nor `None` makes Python raise
`AttributeError` on `.copy()`; that crash is `none`. -/
def toInternalValueField (langs : List String) (field_name : String)
    (data : List (String × PyVal)) : Option (List (String × PyVal)) :=
  match alget data field_name with
  | none => some data
  | some .null => some data
  | some (.m inner) =>
    let values := translatedUpdateStep inner field_name (langs.headD "") inner
    let values := (langs.drop 1).foldl
      (fun vs lang => translatedUpdateStep inner field_name lang vs) values
    let data := values.foldl
      (fun d kv =>
        alset d kv.1 (match kv.2 with | some v => PyVal.s v | none => PyVal.null))
      data
    some (aldel data field_name)
  | some _ => none

/-- Method `TranslatedModelSerializer.to_internal_value`: flatten every
translatable field of the payload. -/
def TranslatedModelSerializer_to_internal_value (langs translated_fields : List String)
    (data : List (String × PyVal)) : Option (List (String × PyVal)) :=
  translated_fields.foldlM (fun d f => toInternalValueField langs f d) data

/-- Method `TranslatedModelSerializer.translated_fields_to_representation`:
rebuild the nested wire mapping of every translatable field from the flat
per-language storage `obj` (a total attribute map: `none` is a stored
`None`/absent slot) into the outgoing representation `ret`. -/
def translated_fields_to_representation (langs translated_fields : List String)
    (obj : String → Option String) (ret : List (String × PyVal)) :
    List (String × PyVal) :=
  translated_fields.foldl (fun ret field_name =>
    let default_lang := langs.headD ""
    let d : List (String × Option String) := [(default_lang, obj field_name)]
    let d := (langs.drop 1).foldl (fun d lang =>
      match obj (field_name ++ "_" ++ lang) with
      | none => d
      | some val => alset d lang (some val)) d
    let rep := if d.all (fun kv => kv.2 = none) then PyVal.null else PyVal.m d
    alset ret field_name rep) ret

/-- View of an encoded flat payload as per-language storage, for feeding the
decoder: a key holding a string is a populated slot, anything else (absent
key, `None`) is an empty slot. -/
def storageOf (data : List (String × PyVal)) : String → Option String :=
  fun k =>
    match alget data k with
    | some (.s v) => some v
    | _ => none

/-! ## Event creation (api.py lines 90-115 and 981-1022)

```python
def generate_id(namespace):
    t = time.time() * 1000
    postfix = base64.b32encode(struct.pack(">Q", int(t)).lstrip(b'\x00'))
    postfix = postfix.strip(b'=').lower().decode(encoding='UTF-8')
    return '{}:{}'.format(namespace, postfix)

def perform_id_magic_for(data):
    if 'id' in data:
        err = "Do not send 'id' when POSTing a new Event (got id='{}')"
        raise ParseError(err.format(data['id']))
    data['id'] = generate_id(data['data_source'])
    return data
```

`EventViewSet.create` forces `data['data_source'] = 'system'`, derives the
publisher from the authenticated caller via `get_authorized_publisher`
(three bare `assert` statements), generates the id, and hands the result to
the framework serializer (`is_valid` / `perform_create` — collaborators,
modelled as accepting).  The clock enters as `now_ms = int(time.time() * 1000)`. -/

/-- An organization the caller belongs to. -/
structure Organization where
  id : String
  deriving DecidableEq, Repr

/-- The authenticated state of the requesting user. -/
structure UserT where
  is_authenticated : Bool
  organizations : List Organization
  deriving DecidableEq, Repr

/-- Failures of the create pipeline: a DRF `ParseError` (4xx client error),
a bare `AssertionError` (unhandled, surfaces as a 5xx), or a `KeyError`. -/
inductive CreateError where
  | parseError (msg : String)
  | assertionError (msg : String)
  | keyError (key : String)
  deriving DecidableEq, Repr

/-- Big-endian 8-byte packing `struct.pack(">Q", n)` for `n < 2^64`. -/
def packBE64 (n : Nat) : List Nat :=
  [n / 2 ^ 56 % 256, n / 2 ^ 48 % 256, n / 2 ^ 40 % 256, n / 2 ^ 32 % 256,
   n / 2 ^ 24 % 256, n / 2 ^ 16 % 256, n / 2 ^ 8 % 256, n % 256]

/-- Bits of one byte, most significant first. -/
def byteBits (b : Nat) : List Nat :=
  [b / 128 % 2, b / 64 % 2, b / 32 % 2, b / 16 % 2, b / 8 % 2, b / 4 % 2, b / 2 % 2, b % 2]

/-- Split a bit list into 5-bit groups, the last group padded on the right
with zero bits — the per-character values of RFC 4648 base32. -/
def fiveBitGroups (bits : List Nat) : List Nat :=
  if h : bits = [] then []
  else
    (bits.take 5).foldl (fun a b => 2 * a + b) 0 * 2 ^ (5 - (bits.take 5).length)
      :: fiveBitGroups (bits.drop 5)
termination_by bits.length
decreasing_by
  simp only [List.length_drop]
  have hl : 0 < bits.length := List.length_pos.mpr h
  omega

/-- Character of the (already lowercased) base32 alphabet. -/
def b32CharLower (i : Nat) : Char :=
  "abcdefghijklmnopqrstuvwxyz234567".toList.getD i 'a'

/-- Composition `base64.b32encode(bs).strip(b'=').lower()`: stripping the
`=` padding leaves exactly the 5-bit groups of the byte string's bits. -/
def b32encodeNoPadLower (bs : List Nat) : String :=
  String.mk ((fiveBitGroups ((bs.map byteBits).flatten)).map b32CharLower)

/-- Function `generate_id` from api.py at clock value `now_ms`. -/
def generate_id (ns : String) (now_ms : Nat) : String :=
  ns ++ ":" ++ b32encodeNoPadLower ((packBE64 now_ms).dropWhile (· = 0))

/-- Function `perform_id_magic_for` from api.py.  In the create pipeline
`data['data_source']` is always the string `system`; a payload without it
would raise `KeyError`. -/
def perform_id_magic_for (now_ms : Nat) (data : List (String × PyVal)) :
    Except CreateError (List (String × PyVal)) :=
  if (alget data "id").isSome then
    Except.error (.parseError "Do not send id when POSTing a new Event")
  else
    match alget data "data_source" with
    | some (.s ns) => Except.ok (alset data "id" (.s (generate_id ns now_ms)))
    | _ => Except.error (.keyError "data_source")

/-- Method `EventViewSet.get_authorized_publisher`: three bare assertions,
then `data['publisher'] = objs.first().id`. -/
def get_authorized_publisher (user : UserT) (data : List (String × PyVal)) :
    Except CreateError (List (String × PyVal)) :=
  if user.is_authenticated then
    match user.organizations with
    | [] => Except.error (.assertionError "User needs to be authorized to publish events.")
    | [o] => Except.ok (alset data "publisher" (.s o.id))
    | _ :: _ :: _ =>
      Except.error (.assertionError
        "User is connected to multiple organizations. This is currently not supported.")
  else Except.error (.assertionError "User needs to be authenticated.")

/-- Method `EventViewSet.create`: force the system data source, derive the
publisher, generate the id; the subsequent framework serializer steps are
collaborators modelled as accepting the data unchanged. -/
def EventViewSet_create (user : UserT) (now_ms : Nat)
    (body : List (String × PyVal)) : Except CreateError (List (String × PyVal)) :=
  let data := alset body "data_source" (.s "system")
  match get_authorized_publisher user data with
  | .error e => .error e
  | .ok data =>
    match perform_id_magic_for now_ms data with
    | .error e => .error e
    | .ok data => .ok data

/-! ## `EventSerializer.update` (api.py lines 658-699)

```python
    def update(self, instance, validated_data):
        update_fields = ['start_time', 'end_time', 'location']
        languages = [x[0] for x in settings.LANGUAGES]
        for field in EventTranslationOptions.fields:
            for lang in languages:
                update_fields.append(field + '_' + lang)
        for field in update_fields:
            orig_value = getattr(instance, field)
            new_value = validated_data.get(field, orig_value)
            setattr(instance, field, new_value)
        if instance.end_time:
            instance.has_end_time = True
        instance.save()
        if 'offers' in validated_data:
            instance.offers.all().delete()
            for offer in validated_data.get('offers', []):
                Offer.objects.create(event=instance, **offer)
        if 'external_links' in validated_data:
            instance.external_links.all().delete()
            for link in validated_data.get('external_links', []):
                EventLink.objects.create(event=instance, **link)
        instance.keywords.clear()
        instance.keywords.add(*validated_data['keywords'])
        return instance
```

`EventTranslationOptions.fields` (events/translation.py) and the configured
language list are the parameters `translated_fields` / `langs`.  The model
instance is its attribute dict (every declared field attribute exists, a
never-assigned one reads as `None`, i.e. absent key), plus its three
related collections; offers and external links are opaque payloads. -/

/-- A persisted event as `EventSerializer.update` sees it. -/
structure EventInstance where
  attrs : List (String × PyVal)
  offers : List PyVal
  external_links : List PyVal
  keywords : List String
  deriving DecidableEq, Repr

/-- The `validated_data` dict, split by the shapes `update` reads: scalar
and translated entries, and the three sub-collection keys whose presence
(`some`) or absence (`none`) mirrors `key in validated_data`. -/
structure ValidatedEventData where
  fields : List (String × PyVal)
  offers : Option (List PyVal)
  external_links : Option (List PyVal)
  keywords : Option (List String)
  deriving DecidableEq, Repr

/-- The `update_fields` allow-list built at the top of `update`. -/
def eventUpdateFields (translated_fields langs : List String) : List String :=
  ["start_time", "end_time", "location"] ++
    (translated_fields.map (fun f => langs.map (fun lang => f ++ "_" ++ lang))).flatten

/-- Body of the `for field in update_fields` loop: `setattr(instance, field,
validated_data.get(field, getattr(instance, field)))`. -/
def eventUpdateStep (vdFields : List (String × PyVal)) (a : List (String × PyVal))
    (field : String) : List (String × PyVal) :=
  let orig_value := (alget a field).getD .null
  let new_value := (alget vdFields field).getD orig_value
  alset a field new_value

/-- Method `EventSerializer.update` (the instance binder is `inst`, as
`instance` is reserved in Lean).  The `validated_data['keywords']`
subscript raises `KeyError` when the key is absent: that crash is `none`.
`clear()` + `add(*...)` replaces the keyword set wholesale; the
delete-all-then-recreate of offers and external links replaces those
lists wholesale but only when their key is present. -/
def EventSerializer_update (translated_fields langs : List String)
    (inst : EventInstance) (validated_data : ValidatedEventData) :
    Option EventInstance :=
  let update_fields := eventUpdateFields translated_fields langs
  let attrs := update_fields.foldl (eventUpdateStep validated_data.fields) inst.attrs
  let attrs :=
    if pyTruthy ((alget attrs "end_time").getD .null) then
      alset attrs "has_end_time" (.b true)
    else attrs
  let offers :=
    match validated_data.offers with
    | some os => os
    | none => inst.offers
  let external_links :=
    match validated_data.external_links with
    | some ls => ls
    | none => inst.external_links
  match validated_data.keywords with
  | none => none
  | some ks => some ⟨attrs, offers, external_links, ks⟩

/-! ## URL id quoting (api.py lines 71-87 and 96-108)

```python
def urlquote_id(link):
    if isinstance(link, str):
        parts = link.split('/')
        if len(parts) > 1 and ':' in parts[-2]:
            parts[-2] = urllib.parse.quote(parts[-2])
            link = '/'.join(parts)
    return link

def parse_id_from_uri(uri):
    if not uri.startswith('http'):
        return uri
    path = urllib.parse.urlparse(uri).path
    _id = path.rstrip('/').split('/')[-1]
    _id = urllib.parse.unquote(_id)
    return _id
```

The `urllib.parse` collaborators are modelled bit-exactly on the inputs
that occur here:

* `quote(s)` (default `safe='/'`) leaves unreserved characters and `/`
  untouched and replaces every other character by the `%XX` (uppercase hex)
  encoding of its UTF-8 bytes;
* `unquote(s)` decodes every maximal run of `%XX` groups as a UTF-8 byte
  string (`errors='replace'`, the replacement character standing in for
  invalid sequences — the model's replacement-character count on malformed
  input may differ from CPython's, but every valid sequence decodes
  identically) and passes everything else through;
* `urlparse(uri).path` is modelled for http-style URLs (fragment after
  `#`, `scheme:`, `//netloc` up to the next `/` or `?`, query after `?`;
  the `;params` split never applies because quoting leaves no literal `;`);
* `str.split(sep)` / `sep.join` keep empty pieces, exactly like Python. -/

/-- Characters `urllib.parse.quote` leaves untouched with the default
`safe='/'`: ALPHA / DIGIT / `-` / `.` / `_` / `~` / `/` (given by their
code points). -/
def isUrlSafe (c : Char) : Bool :=
  let n := c.toNat
  (65 ≤ n && n ≤ 90) || (97 ≤ n && n ≤ 122) || (48 ≤ n && n ≤ 57) ||
    n = 45 || n = 46 || n = 95 || n = 126 || n = 47

/-- UTF-8 encoding of one character. -/
def utf8Bytes (c : Char) : List Nat :=
  let n := c.toNat
  if n < 0x80 then [n]
  else if n < 0x800 then [0xC0 + n / 64, 0x80 + n % 64]
  else if n < 0x10000 then [0xE0 + n / 4096, 0x80 + n / 64 % 64, 0x80 + n % 64]
  else [0xF0 + n / 262144, 0x80 + n / 4096 % 64, 0x80 + n / 64 % 64, 0x80 + n % 64]

/-- Uppercase hex digit, as `quote` emits. -/
def hexUpperChar (i : Nat) : Char :=
  "0123456789ABCDEF".toList.getD i '0'

/-- Percent-encoding of one byte: `%XX`. -/
def percentByte (b : Nat) : List Char :=
  ['%', hexUpperChar (b / 16), hexUpperChar (b % 16)]

/-- Encoding of one character under `quote`: itself when safe, otherwise
the percent-encoded UTF-8 bytes. -/
def quoteChar (c : Char) : List Char :=
  if isUrlSafe c then [c] else ((utf8Bytes c).map percentByte).flatten

/-- Function `urllib.parse.quote` with the default `safe='/'`. -/
def urlquote (s : List Char) : List Char :=
  (s.map quoteChar).flatten

/-- Value of a hex digit (either case), as `unquote` accepts. -/
def hexVal (c : Char) : Option Nat :=
  let n := c.toNat
  if 48 ≤ n && n ≤ 57 then some (n - 48)
  else if 97 ≤ n && n ≤ 102 then some (n - 87)
  else if 65 ≤ n && n ≤ 70 then some (n - 55)
  else none

/-- The token stream `unquote` works on: literal characters and the bytes
of valid `%XX` groups. -/
inductive QTok where
  | ch (c : Char)
  | byte (b : Nat)
  deriving DecidableEq, Repr

/-- One step of the percent-string scan: a valid `%XX` becomes a byte, an
invalid `%` stays literal (scanning resumes right after it), everything
else is a literal character. -/
def qtokStep (c : Char) (rest : List Char) : QTok × List Char :=
  if c = '%' then
    match rest with
    | h1 :: h2 :: rest2 =>
      match hexVal h1, hexVal h2 with
      | some a, some b => (.byte (16 * a + b), rest2)
      | _, _ => (.ch c, rest)
    | _ => (.ch c, rest)
  else (.ch c, rest)

theorem qtokStep_snd_length_le (c : Char) (rest : List Char) :
    (qtokStep c rest).2.length ≤ rest.length := by
  unfold qtokStep
  repeat' split
  all_goals try simp only [List.length_cons]
  all_goals omega

/-- Scan of the whole percent-string. -/
def qtokenize : List Char → List QTok
  | [] => []
  | c :: rest => (qtokStep c rest).1 :: qtokenize (qtokStep c rest).2
termination_by l => l.length
decreasing_by
  simp only [List.length_cons]
  have := qtokStep_snd_length_le c rest
  omega

/-- The Unicode replacement character used by `errors='replace'`. -/
def replChar : Char := '�'

/-- UTF-8 continuation byte. -/
def isContByte (b : Nat) : Bool :=
  0x80 ≤ b && b < 0xC0

/-- One step of strict UTF-8 decoding (CPython `bytes.decode('utf-8',
'replace')`): given the first byte and the remaining bytes, the decoded
character (the replacement character on continuation-byte errors, overlong
forms, surrogates and out-of-range values) and the bytes left over. -/
def utf8Step (b : Nat) (t : List Nat) : Char × List Nat :=
  if b < 0x80 then (Char.ofNat b, t)
  else if b < 0xC2 then (replChar, t)
  else if b < 0xE0 then
    match t with
    | b1 :: t1 =>
      if isContByte b1 then (Char.ofNat ((b - 0xC0) * 64 + (b1 - 0x80)), t1)
      else (replChar, t)
    | [] => (replChar, [])
  else if b < 0xF0 then
    match t with
    | b1 :: b2 :: t2 =>
      if isContByte b1 && isContByte b2 then
        let n := (b - 0xE0) * 4096 + (b1 - 0x80) * 64 + (b2 - 0x80)
        if 0x800 ≤ n && (n < 0xD800 || 0xE000 ≤ n) then (Char.ofNat n, t2)
        else (replChar, t2)
      else (replChar, t)
    | _ => (replChar, [])
  else if b < 0xF5 then
    match t with
    | b1 :: b2 :: b3 :: t3 =>
      if isContByte b1 && isContByte b2 && isContByte b3 then
        let n := (b - 0xF0) * 262144 + (b1 - 0x80) * 4096 +
          (b2 - 0x80) * 64 + (b3 - 0x80)
        if 0x10000 ≤ n && n < 0x110000 then (Char.ofNat n, t3)
        else (replChar, t3)
      else (replChar, t)
    | _ => (replChar, [])
  else (replChar, t)

theorem utf8Step_snd_length_le (b : Nat) (t : List Nat) :
    (utf8Step b t).2.length ≤ t.length := by
  unfold utf8Step
  repeat' split
  all_goals dsimp only
  repeat' split
  all_goals try simp only [List.length_cons, List.length_nil]
  all_goals omega

/-- Strict UTF-8 decoding of a byte list with replacement on errors. -/
def utf8Decode : List Nat → List Char
  | [] => []
  | b :: t => (utf8Step b t).1 :: utf8Decode (utf8Step b t).2
termination_by l => l.length
decreasing_by
  simp only [List.length_cons]
  have := utf8Step_snd_length_le b t
  omega

/-- Leading byte run of a token stream. -/
def qtokBytes : List QTok → List Nat
  | .byte b :: rest => b :: qtokBytes rest
  | _ => []

/-- Token stream after its leading byte run. -/
def qtokAfterBytes : List QTok → List QTok
  | .byte _ :: rest => qtokAfterBytes rest
  | l => l

theorem qtokAfterBytes_length_le (l : List QTok) :
    (qtokAfterBytes l).length ≤ l.length := by
  induction l with
  | nil => simp [qtokAfterBytes]
  | cons hd t ih =>
    cases hd with
    | ch c => simp [qtokAfterBytes]
    | byte b =>
      simp only [qtokAfterBytes, List.length_cons]
      omega

/-- Reassembly: each maximal byte run is UTF-8 decoded, literal characters
pass through. -/
def qdetok : List QTok → List Char
  | [] => []
  | .ch c :: rest => c :: qdetok rest
  | .byte b :: rest =>
    utf8Decode (b :: qtokBytes rest) ++ qdetok (qtokAfterBytes rest)
termination_by l => l.length
decreasing_by
  all_goals simp only [List.length_cons]
  · omega
  · have := qtokAfterBytes_length_le rest
    omega

/-- Function `urllib.parse.unquote` (UTF-8, `errors='replace'`). -/
def pyUnquote (s : List Char) : List Char :=
  qdetok (qtokenize s)

/-- Python `str.split(sep)` for a one-character separator: keeps empty
pieces, splitting the empty string gives one empty piece. -/
def pySplit (sep : Char) : List Char → List (List Char)
  | [] => [[]]
  | c :: rest =>
    let r := pySplit sep rest
    if c = sep then [] :: r
    else (c :: r.headD []) :: r.tail

/-- Python `sep.join(parts)` for a one-character separator. -/
def pyJoin (sep : Char) : List (List Char) → List Char
  | [] => []
  | [x] => x
  | x :: rest => x ++ sep :: pyJoin sep rest

/-- Function `urlquote_id` from api.py: percent-quote the second-to-last
slash-separated piece when it contains a colon. -/
def urlquote_id (link : List Char) : List Char :=
  let parts := pySplit '/' link
  if 1 < parts.length && (parts.getD (parts.length - 2) []).contains ':' then
    pyJoin '/' (parts.set (parts.length - 2)
      (urlquote (parts.getD (parts.length - 2) [])))
  else link

/-- Scheme characters accepted by `urlparse`: letters, digits, `+`, `-`,
`.` (given by their code points). -/
def isSchemeChar (c : Char) : Bool :=
  let n := c.toNat
  (97 ≤ n && n ≤ 122) || (65 ≤ n && n ≤ 90) || (48 ≤ n && n ≤ 57) ||
    n = 43 || n = 45 || n = 46

/-- Fragment removal of `urlparse`: everything before the first `#`. -/
def urlparseNoFrag (uri : List Char) : List Char :=
  uri.takeWhile (fun c => c ≠ '#')

/-- Scheme removal of `urlparse`: when a non-empty run of scheme characters
precedes the first colon, everything after that colon. -/
def urlparseAfterScheme (noFrag : List Char) : List Char :=
  let preColon := noFrag.takeWhile (fun c => c ≠ ':')
  if (noFrag.dropWhile (fun c => c ≠ ':')) ≠ [] && !preColon.isEmpty &&
      preColon.all isSchemeChar then
    (noFrag.dropWhile (fun c => c ≠ ':')).drop 1
  else noFrag

/-- Netloc removal of `urlparse`: a leading `//` introduces the authority,
which extends to the next `/` or `?`. -/
def urlparseAfterNetloc (rest : List Char) : List Char :=
  if rest.take 2 = ['/', '/'] then
    (rest.drop 2).dropWhile (fun c => c ≠ '/' && c ≠ '?')
  else rest

/-- Path component of `urllib.parse.urlparse`, modelled for http-style
URLs: drop the fragment, the `scheme:`, the `//netloc`, and the query. -/
def urlparsePath (uri : List Char) : List Char :=
  (urlparseAfterNetloc (urlparseAfterScheme (urlparseNoFrag uri))).takeWhile
    (fun c => c ≠ '?')

/-- Python `str.rstrip('/')`. -/
def rstripSlashes (l : List Char) : List Char :=
  (l.reverse.dropWhile (fun c => c = '/')).reverse

/-- Function `parse_id_from_uri` from api.py. -/
def parse_id_from_uri (uri : List Char) : List Char :=
  if ("http".toList).isPrefixOf uri then
    pyUnquote (((pySplit '/' (rstripSlashes (urlparsePath uri))).getLastD []))
  else uri

/-- Token stream of a quoted string, by construction: a safe character
stays literal, an unsafe one contributes its UTF-8 bytes.  Specification
device relating `qtokenize` and `urlquote`. -/
def quoteTokens (s : List Char) : List QTok :=
  (s.map (fun c =>
    if isUrlSafe c then [QTok.ch c] else (utf8Bytes c).map QTok.byte)).flatten

/-! # Theorems -/

/-- C3: `parse_duration` accepts an integer with unit `d`/`h`/`m` and maps
`"2h"` to 7200 and `"abc"` to a client-error `ParseError` as the claim
states, but on a unit of `s` — explicit or defaulted, e.g. on `"90"` or
`"10s"` — the local `mul` is never assigned and the code raises
`UnboundLocalError` (a server crash) instead of returning the number of
seconds that the claim (and the code's own regex and default-unit
handling) calls for. -/
theorem parse_duration_seconds_crash :
    parse_duration "2h" = .ok 7200 ∧
    parse_duration "1d" = .ok 86400 ∧
    parse_duration "3m" = .ok 180 ∧
    parse_duration "abc" = .parseError ∧
    parse_duration "90" = .crash ∧
    parse_duration "10s" = .crash := by
  refine ⟨?_, ?_, ?_, ?_, ?_, ?_⟩ <;> rfl

/-- C4 counterexample: with parsed instants `X = 0 < Y = 10`, the event
`[10, 20]` is kept by the composed `start`/`end` filters although its
interval is disjoint from the half-open interval `[0, 10)` — so the filter
pair does not return exactly the events intersecting `[X, Y)`. -/
theorem filterStartEnd_not_halfOpen_intersection :
    filterStartEnd 0 10 [⟨10, 20⟩] = [⟨10, 20⟩] ∧
    ¬ intersectsHalfOpen ⟨10, 20⟩ 0 10 := by
  constructor
  · rfl
  · rintro ⟨t, h1, h2, h3, h4⟩
    dsimp only at h1 h2
    omega

/-- C4 (amended): for events with `start_time ≤ end_time` and instants
`X < Y`, the composed `start=X` / `end=Y` filters return exactly the events
whose closed interval `[start_time, end_time]` meets the closed interval
`[X, Y]`, except those that end exactly at `X` while starting strictly
before `X`. -/
theorem filterStartEnd_characterisation (x y : Int) (queryset : List EventT)
    (hxy : x < y) (hwf : ∀ e ∈ queryset, e.start_time ≤ e.end_time) :
    ∀ e, e ∈ filterStartEnd x y queryset ↔
      e ∈ queryset ∧ intersectsClosed e x y ∧
        ¬ (e.end_time = x ∧ e.start_time < x) := by
  intro e
  unfold filterStartEnd
  simp only [List.mem_filter, startParamPred, endParamPred]
  constructor
  · rintro ⟨⟨hmem, hstart⟩, hend⟩
    have hwfe := hwf e hmem
    simp only [Bool.or_eq_true, decide_eq_true_eq] at hstart hend
    refine ⟨hmem, ⟨max e.start_time x, le_max_left _ _, ?_, le_max_right _ _, ?_⟩, ?_⟩
    · rcases hstart with h | h <;> omega
    · rcases hend with h | h <;> omega
    · rcases hstart with h | h <;> omega
  · rintro ⟨hmem, ⟨t, ht1, ht2, ht3, ht4⟩, hbd⟩
    have hwfe := hwf e hmem
    refine ⟨⟨hmem, ?_⟩, ?_⟩ <;> simp only [Bool.or_eq_true, decide_eq_true_eq] <;> omega

/-- Witness for `filterStartEnd_characterisation` at a concrete queryset. -/
theorem filterStartEnd_characterisation_witness :
    (0 : Int) < 10 ∧
    ((⟨2, 5⟩ : EventT) ∈ filterStartEnd 0 10 [⟨2, 5⟩] ↔
      (⟨2, 5⟩ : EventT) ∈ [(⟨2, 5⟩ : EventT)] ∧ intersectsClosed ⟨2, 5⟩ 0 10 ∧
        ¬ ((2 : Int) = 0 ∧ (2 : Int) < 0)) := by
  refine ⟨by norm_num, ?_⟩
  have h := filterStartEnd_characterisation 0 10 [⟨2, 5⟩] (by norm_num)
    (by intro e he; simp at he; subst he; norm_num) ⟨2, 5⟩
  simpa using h

/-- C9: the `ISO8601DurationField` round trip fails at one day.  Storing
86,400,000 ms (one day), rendering (`P1D`, i.e. days = 1) and parsing back
yields 86,400,000,000 — the `to_internal_value` days term multiplies by the
microseconds-per-day factor `24 * 3600 * 1000000` where the field's
millisecond unit requires `24 * 3600 * 1000`. -/
theorem durationField_roundTrip_fails_at_one_day :
    durationFieldRoundTrip 86400000 = 86400000000 ∧
    (86400000000 : Nat) ≠ 86400000 := by
  constructor
  · rfl
  · decide

/-- C5 counterexample: the literal `today` does not always yield local
midnight of the current day — used as an end bound (`is_start = false`,
exactly how `_filter_event_queryset` parses the `end` and
`last_modified_since` parameters) it yields local midnight of the
following day.  Concretely, with the current local instant 2026-10-12
09:30, `parse_time("today", is_start=False)` returns midnight 2026-10-13. -/
theorem parse_time_today_end_counterexample :
    parse_time (fun _ => none) ⟨⟨2026, 10, 12⟩, 9, 30, 0, 0, .local⟩ "today" false
      = .ok ⟨⟨2026, 10, 13⟩, 0, 0, 0, 0, .local⟩ ∧
    (DT.mk ⟨2026, 10, 13⟩ 0 0 0 0 .local) ≠ (DT.mk ⟨2026, 10, 12⟩ 0 0 0 0 .local) := by
  exact ⟨rfl, by decide⟩

/-- C5 (amended): `parse_time` maps a bare date `yyyy-mm-dd` to local
midnight of that day as a start bound and local midnight of the following
day as an end bound (so `2014-01-15` yields midnight 2014-01-15 resp.
2014-01-16); the literal `today` yields local midnight of the current day
as a start bound and local midnight of the following day as an end bound
(the `is_start` adjustment applies to it exactly as to bare dates); and
every string that is neither a bare date nor `today` nor accepted by the
`dateutil` timestamp parser raises the client-error `ParseError`. -/
theorem parse_time_spec (o : String → Option DT) (nowLocal : DT) (is_start : Bool) :
    (parse_time o nowLocal "2014-01-15" true = .ok ⟨⟨2014, 1, 15⟩, 0, 0, 0, 0, .local⟩) ∧
    (parse_time o nowLocal "2014-01-15" false = .ok ⟨⟨2014, 1, 16⟩, 0, 0, 0, 0, .local⟩) ∧
    (parse_time o nowLocal "today" is_start =
      .ok (if is_start then ⟨nowLocal.date, 0, 0, 0, 0, nowLocal.tz⟩
           else ⟨nextDay nowLocal.date, 0, 0, 0, 0, nowLocal.tz⟩)) ∧
    (∀ s : String, strptimeYmd (pyStrip s.toList) = none →
      pyLower (pyStrip s.toList) ≠ "today".toList →
      o (String.mk (pyStrip s.toList)) = none →
      parse_time o nowLocal s is_start = .parseError) := by
  refine ⟨rfl, rfl, ?_, ?_⟩
  · cases is_start <;> rfl
  · intro s h1 h2 h3
    unfold parse_time
    simp only [h1, if_neg h2, h3]

/-- Witness for `parse_time_spec`: concrete oracle, clock and input; the
string `abc` is neither a bare date nor `today` and the oracle rejects it,
so parsing fails with the client error. -/
theorem parse_time_spec_witness :
    parse_time (fun _ => none) ⟨⟨2026, 10, 12⟩, 9, 30, 0, 0, .local⟩ "abc" true
      = .parseError := by
  exact (parse_time_spec (fun _ => none) ⟨⟨2026, 10, 12⟩, 9, 30, 0, 0, .local⟩
    true).2.2.2 "abc" rfl (by decide) rfl

/-- C1: the translated-field round trip fails.  Encoding the nested mapping
`name = (fi: a, sv: b, en: c)` (a value for every supported language, `fi`
the default) with `TranslatedModelSerializer.to_internal_value` and decoding
the resulting flat storage with `translated_fields_to_representation` yields
`(fi: None, sv: b, en: c)`, not the original mapping: the encoder deletes
the bare field key that the decoder reads for the default-language slot
(and, before deleting it, had overwritten it with each non-default
language's value), contradicting the encoder's own docstring.  The second
half of the claim does hold: decoding a field whose every language slot is
absent yields null, never an empty mapping. -/
theorem translated_field_round_trip_fails :
    (TranslatedModelSerializer_to_internal_value ["fi", "sv", "en"] ["name"]
        [("name", .m [("fi", some "a"), ("sv", some "b"), ("en", some "c")])]).map
      (fun flat =>
        alget (translated_fields_to_representation ["fi", "sv", "en"] ["name"]
          (storageOf flat) []) "name")
      = some (some (.m [("fi", none), ("sv", some "b"), ("en", some "c")])) ∧
    PyVal.m [("fi", none), ("sv", some "b"), ("en", some "c")] ≠
      PyVal.m [("fi", some "a"), ("sv", some "b"), ("en", some "c")] ∧
    alget (translated_fields_to_representation ["fi", "sv", "en"] ["name"]
      (fun _ => none) []) "name" = some PyVal.null := by
  exact ⟨rfl, by decide, rfl⟩

/-- C2: flattening the payload `name = (fi: suomeksi, en: in english)`
(default language `fi`, which the mapping supplies) leaves no bare `name`
key at all: the loop overwrites `values[field_name]` with each non-default
language's value and the final `del data[field_name]` removes the bare key
from the payload — the bare field does not end up holding the
default-language value, contradicting the claim and the method's own
docstring (api.py lines 259-275). -/
theorem to_internal_value_bare_field_dropped :
    TranslatedModelSerializer_to_internal_value ["fi", "en"] ["name"]
        [("name", .m [("fi", some "suomeksi"), ("en", some "in english")])]
      = some [("name_fi", .s "suomeksi"), ("name_en", .s "in english")] ∧
    alget [("name_fi", PyVal.s "suomeksi"), ("name_en", PyVal.s "in english")] "name"
      = none := by
  exact ⟨rfl, rfl⟩

/-- C6: for a caller that passes the publisher-authorization step
(authenticated, exactly one organization), a create body containing an
`id` key is rejected with the client-error `ParseError` regardless of every
other field, and a body without `id` gets the server-generated identifier
`system:` followed by the base32 encoding of the millisecond timestamp. -/
theorem event_create_id_handling (user : UserT) (o : Organization) (now_ms : Nat)
    (body : List (String × PyVal))
    (hauth : user.is_authenticated = true)
    (horg : user.organizations = [o]) :
    ((alget body "id").isSome = true →
      EventViewSet_create user now_ms body =
        .error (.parseError "Do not send id when POSTing a new Event")) ∧
    (alget body "id" = none →
      ∃ d, EventViewSet_create user now_ms body = .ok d ∧
        alget d "id" = some (.s ("system:" ++
          b32encodeNoPadLower ((packBE64 now_ms).dropWhile (· = 0))))) := by
  have hid1 : alget (alset (alset body "data_source" (.s "system"))
      "publisher" (.s o.id)) "id" = alget body "id" := by
    rw [alget_alset_ne _ _ _ _ (by decide), alget_alset_ne _ _ _ _ (by decide)]
  have hds : alget (alset (alset body "data_source" (.s "system"))
      "publisher" (.s o.id)) "data_source" = some (.s "system") := by
    rw [alget_alset_ne _ _ _ _ (by decide), alget_alset_self]
  constructor
  · intro h
    simp only [EventViewSet_create, get_authorized_publisher, hauth, if_true, horg,
      perform_id_magic_for, hid1, h]
  · intro h
    simp only [EventViewSet_create, get_authorized_publisher, hauth, if_true, horg,
      perform_id_magic_for, hid1, h, Option.isSome_none, Bool.false_eq_true, if_false,
      hds]
    exact ⟨_, rfl, by rw [alget_alset_self]; rfl⟩

/-- Witness for `event_create_id_handling`: a concrete authenticated
one-organization caller; the body carrying an `id` is rejected as a client
error. -/
theorem event_create_id_handling_witness :
    EventViewSet_create ⟨true, [⟨"org:1"⟩]⟩ 5 [("id", PyVal.s "evil")]
      = .error (.parseError "Do not send id when POSTing a new Event") :=
  (event_create_id_handling ⟨true, [⟨"org:1"⟩]⟩ ⟨"org:1"⟩ 5
    [("id", PyVal.s "evil")] rfl rfl).1 rfl

/-- C7: for an authenticated caller with exactly one organization the create
pipeline succeeds (on a body without a client-supplied `id`, which C6 shows
is rejected regardless of the caller) and the stored publisher is that
organization's identifier; with zero organizations or more than one the
pipeline fails on the corresponding bare assertion.  The framework
serializer steps after the pipeline are modelled as accepting. -/
theorem event_create_publisher_authorization (user : UserT) (now_ms : Nat)
    (body : List (String × PyVal)) (hauth : user.is_authenticated = true) :
    (∀ o, user.organizations = [o] → alget body "id" = none →
      ∃ d, EventViewSet_create user now_ms body = .ok d ∧
        alget d "publisher" = some (.s o.id)) ∧
    (user.organizations = [] →
      EventViewSet_create user now_ms body =
        .error (.assertionError "User needs to be authorized to publish events.")) ∧
    (∀ o1 o2 rest, user.organizations = o1 :: o2 :: rest →
      EventViewSet_create user now_ms body =
        .error (.assertionError
          "User is connected to multiple organizations. This is currently not supported.")) := by
  refine ⟨?_, ?_, ?_⟩
  · intro o horg h
    have hid1 : alget (alset (alset body "data_source" (.s "system"))
        "publisher" (.s o.id)) "id" = alget body "id" := by
      rw [alget_alset_ne _ _ _ _ (by decide), alget_alset_ne _ _ _ _ (by decide)]
    have hds : alget (alset (alset body "data_source" (.s "system"))
        "publisher" (.s o.id)) "data_source" = some (.s "system") := by
      rw [alget_alset_ne _ _ _ _ (by decide), alget_alset_self]
    simp only [EventViewSet_create, get_authorized_publisher, hauth, if_true, horg,
      perform_id_magic_for, hid1, h, Option.isSome_none, Bool.false_eq_true, if_false,
      hds]
    refine ⟨_, rfl, ?_⟩
    rw [alget_alset_ne _ _ _ _ (by decide), alget_alset_self]
  · intro horg
    simp only [EventViewSet_create, get_authorized_publisher, hauth, if_true, horg]
  · intro o1 o2 rest horg
    simp only [EventViewSet_create, get_authorized_publisher, hauth, if_true, horg]

/-- Witness for `event_create_publisher_authorization`: a concrete
one-organization caller; create succeeds and the publisher is the
organization's id. -/
theorem event_create_publisher_authorization_witness :
    ∃ d, EventViewSet_create ⟨true, [⟨"org:1"⟩]⟩ 5 [("name", PyVal.s "x")] = .ok d ∧
      alget d "publisher" = some (.s "org:1") :=
  (event_create_publisher_authorization ⟨true, [⟨"org:1"⟩]⟩ 5
    [("name", PyVal.s "x")] rfl).1 ⟨"org:1"⟩ rfl rfl

theorem alget_foldl_eventUpdateStep_notmem (vdFields : List (String × PyVal))
    (fields : List String) (a : List (String × PyVal)) (f : String)
    (hf : f ∉ fields) :
    alget (fields.foldl (eventUpdateStep vdFields) a) f = alget a f := by
  induction fields generalizing a with
  | nil => rfl
  | cons hd t ih =>
    have hne : f ≠ hd := fun hh => hf (hh ▸ List.mem_cons_self hd t)
    rw [List.foldl_cons, ih _ (fun hh => hf (List.mem_cons_of_mem hd hh))]
    exact alget_alset_ne _ _ _ _ hne

/-- C10 counterexample: `has_end_time` is not in the `update_fields`
allow-list, yet `update` mutates it.  On an instance with a set `end_time`
and `has_end_time = False`, an update whose validated data touches nothing
(it only carries the mandatory `keywords` entry) flips `has_end_time` to
`True` — so fields outside the fixed allow-list are not all left
unchanged, refuting that conjunct of the claim. -/
theorem update_mutates_has_end_time :
    (EventSerializer_update ["name"] ["fi"]
        ⟨[("start_time", .s "t0"), ("end_time", .s "t1"), ("location", .null),
          ("has_end_time", .b false)], [], [], ["k"]⟩
        ⟨[], none, none, some ["k"]⟩).map
      (fun r => alget r.attrs "has_end_time") = some (some (.b true)) ∧
    alget [("start_time", PyVal.s "t0"), ("end_time", PyVal.s "t1"),
      ("location", PyVal.null), ("has_end_time", PyVal.b false)] "has_end_time"
      = some (.b false) ∧
    "has_end_time" ∉ eventUpdateFields ["name"] ["fi"] := by
  exact ⟨rfl, rfl, by decide⟩

/-- C10 (amended): `EventSerializer.update` replaces the keyword set
unconditionally with `validated_data['keywords']` and fails (`KeyError`)
when that key is absent; offers and external links are wholesale-replaced
exactly when their key is present in the validated data; and every field
outside the fixed allow-list is left unchanged **except** `has_end_time`,
which is set to true whenever the updated instance's `end_time` is set
(and is left unchanged otherwise). -/
theorem EventSerializer_update_spec (translated_fields langs : List String)
    (inst : EventInstance) (vd : ValidatedEventData)
    (hhet : "has_end_time" ∉ eventUpdateFields translated_fields langs) :
    (vd.keywords = none →
      EventSerializer_update translated_fields langs inst vd = none) ∧
    (∀ ks, vd.keywords = some ks →
      ∃ r, EventSerializer_update translated_fields langs inst vd = some r ∧
        r.keywords = ks ∧
        r.offers = vd.offers.getD inst.offers ∧
        r.external_links = vd.external_links.getD inst.external_links ∧
        (∀ f, f ∉ eventUpdateFields translated_fields langs → f ≠ "has_end_time" →
          alget r.attrs f = alget inst.attrs f) ∧
        (pyTruthy ((alget r.attrs "end_time").getD .null) = false →
          alget r.attrs "has_end_time" = alget inst.attrs "has_end_time") ∧
        (pyTruthy ((alget r.attrs "end_time").getD .null) = true →
          alget r.attrs "has_end_time" = some (.b true))) := by
  constructor
  · intro h
    simp only [EventSerializer_update, h]
  · intro ks hks
    simp only [EventSerializer_update, hks]
    set attrs1 := (eventUpdateFields translated_fields langs).foldl
      (eventUpdateStep vd.fields) inst.attrs with hattrs1
    set c := pyTruthy ((alget attrs1 "end_time").getD .null) with hc
    have hframe : ∀ f, f ∉ eventUpdateFields translated_fields langs →
        alget attrs1 f = alget inst.attrs f :=
      fun f hf => alget_foldl_eventUpdateStep_notmem vd.fields _ inst.attrs f hf
    have hend2 : alget (if c then alset attrs1 "has_end_time" (.b true) else attrs1)
        "end_time" = alget attrs1 "end_time" := by
      rcases c with _ | _
      · simp
      · simp only [if_true]
        exact alget_alset_ne _ _ _ _ (by decide)
    refine ⟨_, rfl, rfl, ?_, ?_, ?_, ?_, ?_⟩
    · cases vd.offers <;> rfl
    · cases vd.external_links <;> rfl
    · intro f hf hfh
      rcases hcv : c with _ | _
      · simp only [hcv, if_false]
        exact hframe f hf
      · simp only [hcv, if_true]
        rw [alget_alset_ne _ _ _ _ hfh]
        exact hframe f hf
    · intro hfalse
      rw [hend2, ← hc] at hfalse
      simp only [hfalse, if_false]
      exact hframe _ hhet
    · intro htrue
      rw [hend2, ← hc] at htrue
      simp only [htrue, if_true]
      exact alget_alset_self _ _ _

/-- Witness for `EventSerializer_update_spec`: a concrete instance and a
validated payload without a `keywords` key — the update fails. -/
theorem EventSerializer_update_spec_witness :
    EventSerializer_update ["name"] ["fi"]
      ⟨[("start_time", PyVal.s "t0")], [], [], []⟩ ⟨[], none, none, none⟩ = none :=
  (EventSerializer_update_spec ["name"] ["fi"]
    ⟨[("start_time", PyVal.s "t0")], [], [], []⟩ ⟨[], none, none, none⟩ (by decide)).1 rfl

theorem char_toNat_valid (c : Char) :
    c.toNat < 0xD800 ∨ (0xE000 ≤ c.toNat ∧ c.toNat < 0x110000) := by
  have h := c.valid
  simp only [UInt32.isValidChar, Nat.isValidChar, Char.toNat] at h ⊢
  rcases h with h | ⟨h1, h2⟩
  · exact Or.inl h
  · exact Or.inr ⟨by omega, h2⟩


theorem utf8Decode_cons (b : Nat) (t : List Nat) :
    utf8Decode (b :: t) = (utf8Step b t).1 :: utf8Decode (utf8Step b t).2 := by
  rw [utf8Decode]

theorem utf8Step_one (b : Nat) (t : List Nat) (h : b < 0x80) :
    utf8Step b t = (Char.ofNat b, t) := by
  unfold utf8Step
  rw [if_pos h]

theorem utf8Step_two (b b1 : Nat) (t : List Nat) (h1 : 0xC2 ≤ b) (h2 : b < 0xE0)
    (hc : isContByte b1 = true) :
    utf8Step b (b1 :: t) = (Char.ofNat ((b - 0xC0) * 64 + (b1 - 0x80)), t) := by
  unfold utf8Step
  rw [if_neg (by omega), if_neg (by omega), if_pos h2]
  dsimp only
  rw [if_pos hc]

theorem utf8Step_three (b b1 b2 : Nat) (t : List Nat) (h1 : 0xE0 ≤ b)
    (h2 : b < 0xF0) (hc1 : isContByte b1 = true) (hc2 : isContByte b2 = true)
    (hval : 0x800 ≤ (b - 0xE0) * 4096 + (b1 - 0x80) * 64 + (b2 - 0x80) ∧
      ((b - 0xE0) * 4096 + (b1 - 0x80) * 64 + (b2 - 0x80) < 0xD800 ∨
        0xE000 ≤ (b - 0xE0) * 4096 + (b1 - 0x80) * 64 + (b2 - 0x80))) :
    utf8Step b (b1 :: b2 :: t) =
      (Char.ofNat ((b - 0xE0) * 4096 + (b1 - 0x80) * 64 + (b2 - 0x80)), t) := by
  unfold utf8Step
  rw [if_neg (by omega), if_neg (by omega), if_neg (by omega), if_pos h2]
  dsimp only
  rw [if_pos (by rw [hc1, hc2]; rfl)]
  rw [if_pos (by
    simp only [Bool.and_eq_true, Bool.or_eq_true, decide_eq_true_eq]
    omega)]

theorem utf8Step_four (b b1 b2 b3 : Nat) (t : List Nat) (h1 : 0xF0 ≤ b)
    (h2 : b < 0xF5) (hc1 : isContByte b1 = true) (hc2 : isContByte b2 = true)
    (hc3 : isContByte b3 = true)
    (hval : 0x10000 ≤ (b - 0xF0) * 262144 + (b1 - 0x80) * 4096 +
        (b2 - 0x80) * 64 + (b3 - 0x80) ∧
      (b - 0xF0) * 262144 + (b1 - 0x80) * 4096 + (b2 - 0x80) * 64 + (b3 - 0x80)
        < 0x110000) :
    utf8Step b (b1 :: b2 :: b3 :: t) =
      (Char.ofNat ((b - 0xF0) * 262144 + (b1 - 0x80) * 4096 + (b2 - 0x80) * 64 +
        (b3 - 0x80)), t) := by
  unfold utf8Step
  rw [if_neg (by omega), if_neg (by omega), if_neg (by omega), if_neg (by omega),
    if_pos h2]
  dsimp only
  rw [if_pos (by rw [hc1, hc2, hc3]; rfl)]
  rw [if_pos (by
    simp only [Bool.and_eq_true, decide_eq_true_eq]
    omega)]

theorem utf8Decode_utf8Bytes (c : Char) (bs : List Nat) :
    utf8Decode (utf8Bytes c ++ bs) = c :: utf8Decode bs := by
  have hv := char_toNat_valid c
  rcases Nat.lt_or_ge c.toNat 0x80 with h1 | h1
  · have hb : utf8Bytes c = [c.toNat] := by
      simp only [utf8Bytes]
      rw [if_pos h1]
    rw [hb, List.cons_append, List.nil_append, utf8Decode_cons,
      utf8Step_one _ _ h1, Char.ofNat_toNat]
  · rcases Nat.lt_or_ge c.toNat 0x800 with h2 | h2
    · have hb : utf8Bytes c = [0xC0 + c.toNat / 64, 0x80 + c.toNat % 64] := by
        simp only [utf8Bytes]
        rw [if_neg (by omega), if_pos h2]
      rw [hb, List.cons_append, List.cons_append, List.nil_append,
        utf8Decode_cons,
        utf8Step_two _ _ _ (by omega) (by omega)
          (by simp only [isContByte, Bool.and_eq_true, decide_eq_true_eq]; omega)]
      have hn : (0xC0 + c.toNat / 64 - 0xC0) * 64 + (0x80 + c.toNat % 64 - 0x80)
          = c.toNat := by omega
      rw [hn, Char.ofNat_toNat]
    · rcases Nat.lt_or_ge c.toNat 0x10000 with h3 | h3
      · have hb : utf8Bytes c = [0xE0 + c.toNat / 4096, 0x80 + c.toNat / 64 % 64,
            0x80 + c.toNat % 64] := by
          simp only [utf8Bytes]
          rw [if_neg (by omega), if_neg (by omega), if_pos h3]
        have hn : (0xE0 + c.toNat / 4096 - 0xE0) * 4096 +
            (0x80 + c.toNat / 64 % 64 - 0x80) * 64 + (0x80 + c.toNat % 64 - 0x80)
            = c.toNat := by omega
        rw [hb, List.cons_append, List.cons_append, List.cons_append,
          List.nil_append, utf8Decode_cons,
          utf8Step_three _ _ _ _ (by omega) (by omega)
            (by simp only [isContByte, Bool.and_eq_true, decide_eq_true_eq]; omega)
            (by simp only [isContByte, Bool.and_eq_true, decide_eq_true_eq]; omega)
            (by rw [hn]; omega),
          hn, Char.ofNat_toNat]
      · have hb : utf8Bytes c = [0xF0 + c.toNat / 262144,
            0x80 + c.toNat / 4096 % 64, 0x80 + c.toNat / 64 % 64,
            0x80 + c.toNat % 64] := by
          simp only [utf8Bytes]
          rw [if_neg (by omega), if_neg (by omega), if_neg (by omega)]
        have hlt : c.toNat < 0x110000 := by omega
        have hn : (0xF0 + c.toNat / 262144 - 0xF0) * 262144 +
            (0x80 + c.toNat / 4096 % 64 - 0x80) * 4096 +
            (0x80 + c.toNat / 64 % 64 - 0x80) * 64 + (0x80 + c.toNat % 64 - 0x80)
            = c.toNat := by omega
        rw [hb, List.cons_append, List.cons_append, List.cons_append,
          List.cons_append, List.nil_append, utf8Decode_cons,
          utf8Step_four _ _ _ _ _ (by omega) (by omega)
            (by simp only [isContByte, Bool.and_eq_true, decide_eq_true_eq]; omega)
            (by simp only [isContByte, Bool.and_eq_true, decide_eq_true_eq]; omega)
            (by simp only [isContByte, Bool.and_eq_true, decide_eq_true_eq]; omega)
            (by rw [hn]; omega),
          hn, Char.ofNat_toNat]

theorem utf8Decode_nil : utf8Decode [] = [] := by
  rw [utf8Decode]

theorem qdetok_nil : qdetok [] = [] := by
  rw [qdetok]

theorem qdetok_ch (c : Char) (rest : List QTok) :
    qdetok (.ch c :: rest) = c :: qdetok rest := by
  rw [qdetok]

theorem qdetok_byte (b : Nat) (rest : List QTok) :
    qdetok (.byte b :: rest) =
      utf8Decode (b :: qtokBytes rest) ++ qdetok (qtokAfterBytes rest) := by
  rw [qdetok]

theorem hexVal_hexUpperChar (i : Nat) (h : i < 16) :
    hexVal (hexUpperChar i) = some i := by
  interval_cases i <;> rfl

theorem utf8Bytes_lt_256 (c : Char) : ∀ b ∈ utf8Bytes c, b < 256 := by
  have hv := char_toNat_valid c
  intro b hb
  rcases Nat.lt_or_ge c.toNat 0x80 with h1 | h1
  · rw [show utf8Bytes c = [c.toNat] from by
      simp only [utf8Bytes]; rw [if_pos h1]] at hb
    simp only [List.mem_singleton] at hb
    omega
  · rcases Nat.lt_or_ge c.toNat 0x800 with h2 | h2
    · rw [show utf8Bytes c = [0xC0 + c.toNat / 64, 0x80 + c.toNat % 64] from by
        simp only [utf8Bytes]; rw [if_neg (by omega), if_pos h2]] at hb
      simp only [List.mem_cons, List.not_mem_nil, or_false] at hb
      rcases hb with rfl | rfl <;> omega
    · rcases Nat.lt_or_ge c.toNat 0x10000 with h3 | h3
      · rw [show utf8Bytes c = [0xE0 + c.toNat / 4096, 0x80 + c.toNat / 64 % 64,
            0x80 + c.toNat % 64] from by
          simp only [utf8Bytes]; rw [if_neg (by omega), if_neg (by omega), if_pos h3]] at hb
        simp only [List.mem_cons, List.not_mem_nil, or_false] at hb
        rcases hb with rfl | rfl | rfl <;> omega
      · rw [show utf8Bytes c = [0xF0 + c.toNat / 262144, 0x80 + c.toNat / 4096 % 64,
            0x80 + c.toNat / 64 % 64, 0x80 + c.toNat % 64] from by
          simp only [utf8Bytes]
          rw [if_neg (by omega), if_neg (by omega), if_neg (by omega)]] at hb
        simp only [List.mem_cons, List.not_mem_nil, or_false] at hb
        rcases hb with rfl | rfl | rfl | rfl <;> omega

theorem utf8Bytes_ne_nil (c : Char) : utf8Bytes c ≠ [] := by
  unfold utf8Bytes
  dsimp only
  split
  · simp
  · split
    · simp
    · split <;> simp

theorem isUrlSafe_ne_pct (c : Char) (h : isUrlSafe c = true) : c ≠ '%' := by
  intro heq
  rw [heq] at h
  exact absurd h (by decide)

theorem qtokenize_nil : qtokenize [] = [] := by
  rw [qtokenize]

theorem qtokenize_cons (c : Char) (rest : List Char) :
    qtokenize (c :: rest) = (qtokStep c rest).1 :: qtokenize (qtokStep c rest).2 := by
  rw [qtokenize]

theorem qtokStep_not_pct (c : Char) (rest : List Char) (hc : c ≠ '%') :
    qtokStep c rest = (.ch c, rest) := by
  unfold qtokStep
  rw [if_neg hc]

theorem qtokenize_cons_not_pct (c : Char) (rest : List Char) (hc : c ≠ '%') :
    qtokenize (c :: rest) = .ch c :: qtokenize rest := by
  rw [qtokenize_cons, qtokStep_not_pct c rest hc]

theorem qtokenize_percentByte (b : Nat) (l : List Char) (hb : b < 256) :
    qtokenize (percentByte b ++ l) = .byte b :: qtokenize l := by
  have h1 : hexVal (hexUpperChar (b / 16)) = some (b / 16) :=
    hexVal_hexUpperChar _ (by omega)
  have h2 : hexVal (hexUpperChar (b % 16)) = some (b % 16) :=
    hexVal_hexUpperChar _ (by omega)
  have hstep : qtokStep '%' (hexUpperChar (b / 16) :: hexUpperChar (b % 16) :: l)
      = (.byte b, l) := by
    unfold qtokStep
    rw [if_pos rfl]
    dsimp only
    rw [h1, h2]
    dsimp only
    rw [show 16 * (b / 16) + b % 16 = b from by omega]
  simp only [percentByte, List.cons_append, List.nil_append]
  rw [qtokenize_cons, hstep]

theorem qtokenize_pctRun (bs : List Nat) (l : List Char) (hbs : ∀ b ∈ bs, b < 256) :
    qtokenize ((bs.map percentByte).flatten ++ l) = bs.map QTok.byte ++ qtokenize l := by
  induction bs with
  | nil => simp
  | cons b t ih =>
    simp only [List.map_cons, List.flatten_cons, List.append_assoc]
    rw [qtokenize_percentByte _ _ (hbs b (List.mem_cons_self b t)),
      ih (fun b2 hb2 => hbs b2 (List.mem_cons_of_mem _ hb2))]
    rfl

theorem qtokenize_urlquote (s : List Char) : qtokenize (urlquote s) = quoteTokens s := by
  induction s with
  | nil => rw [show urlquote [] = [] from rfl, qtokenize_nil]; rfl
  | cons c t ih =>
    by_cases hc : isUrlSafe c
    · have h1 : urlquote (c :: t) = c :: urlquote t := by
        simp [urlquote, quoteChar, hc]
      have h2 : quoteTokens (c :: t) = .ch c :: quoteTokens t := by
        simp [quoteTokens, hc]
      rw [h1, h2, qtokenize_cons_not_pct _ _ (isUrlSafe_ne_pct c hc), ih]
    · have h1 : urlquote (c :: t) = ((utf8Bytes c).map percentByte).flatten ++ urlquote t := by
        simp [urlquote, quoteChar, hc]
      have h2 : quoteTokens (c :: t) = (utf8Bytes c).map QTok.byte ++ quoteTokens t := by
        simp [quoteTokens, hc]
      rw [h1, h2, qtokenize_pctRun _ _ (utf8Bytes_lt_256 c), ih]

theorem qtokBytes_append (bs : List Nat) (T : List QTok) :
    qtokBytes (bs.map QTok.byte ++ T) = bs ++ qtokBytes T := by
  induction bs with
  | nil => rfl
  | cons b t ih =>
    simp only [List.map_cons, List.cons_append, qtokBytes, List.append_eq, ih]

theorem qtokAfterBytes_append (bs : List Nat) (T : List QTok) :
    qtokAfterBytes (bs.map QTok.byte ++ T) = qtokAfterBytes T := by
  induction bs with
  | nil => rfl
  | cons b t ih =>
    simp only [List.map_cons, List.cons_append, qtokAfterBytes, List.append_eq, ih]

theorem qdetok_glue (s : List Char) :
    utf8Decode (qtokBytes (quoteTokens s)) ++ qdetok (qtokAfterBytes (quoteTokens s))
      = qdetok (quoteTokens s) := by
  cases s with
  | nil =>
    rw [show quoteTokens [] = [] from rfl]
    rw [show qtokBytes [] = [] from rfl, show qtokAfterBytes ([] : List QTok) = [] from rfl,
      utf8Decode_nil, List.nil_append]
  | cons c t =>
    by_cases hc : isUrlSafe c
    · rw [show quoteTokens (c :: t) = .ch c :: quoteTokens t from by simp [quoteTokens, hc]]
      rw [show qtokBytes (.ch c :: quoteTokens t) = [] from rfl,
        show qtokAfterBytes (.ch c :: quoteTokens t) = .ch c :: quoteTokens t from rfl,
        utf8Decode_nil, List.nil_append]
    · rcases h0 : utf8Bytes c with _ | ⟨b0, bs2⟩
      · exact absurd h0 (utf8Bytes_ne_nil c)
      · rw [show quoteTokens (c :: t) = .byte b0 :: (bs2.map QTok.byte ++ quoteTokens t)
          from by simp [quoteTokens, hc, h0]]
        rw [show qtokBytes (.byte b0 :: (bs2.map QTok.byte ++ quoteTokens t))
            = b0 :: qtokBytes (bs2.map QTok.byte ++ quoteTokens t) from rfl,
          show qtokAfterBytes (.byte b0 :: (bs2.map QTok.byte ++ quoteTokens t))
            = qtokAfterBytes (bs2.map QTok.byte ++ quoteTokens t) from rfl,
          qdetok_byte]

theorem qdetok_quoteTokens (s : List Char) : qdetok (quoteTokens s) = s := by
  induction s with
  | nil => rw [show quoteTokens [] = [] from rfl, qdetok_nil]
  | cons c t ih =>
    by_cases hc : isUrlSafe c
    · rw [show quoteTokens (c :: t) = .ch c :: quoteTokens t from by simp [quoteTokens, hc],
        qdetok_ch, ih]
    · rcases h0 : utf8Bytes c with _ | ⟨b0, bs2⟩
      · exact absurd h0 (utf8Bytes_ne_nil c)
      · rw [show quoteTokens (c :: t) = .byte b0 :: (bs2.map QTok.byte ++ quoteTokens t)
          from by simp [quoteTokens, hc, h0]]
        rw [qdetok_byte, qtokBytes_append, qtokAfterBytes_append]
        rw [show b0 :: (bs2 ++ qtokBytes (quoteTokens t))
            = utf8Bytes c ++ qtokBytes (quoteTokens t) from by rw [h0]; rfl]
        rw [utf8Decode_utf8Bytes, List.cons_append, qdetok_glue t, ih]

/-- Inverse property of the `urllib.parse` collaborators: percent-decoding
inverts percent-encoding on every string. -/
theorem pyUnquote_urlquote (s : List Char) : pyUnquote (urlquote s) = s := by
  rw [pyUnquote, qtokenize_urlquote, qdetok_quoteTokens]

theorem pySplit_ne_nil (sep : Char) (l : List Char) : pySplit sep l ≠ [] := by
  cases l with
  | nil => simp [pySplit]
  | cons c rest =>
    simp only [pySplit]
    split <;> simp

theorem pySplit_append_sep (sep : Char) (X Z : List Char) :
    pySplit sep (X ++ sep :: Z) = pySplit sep X ++ pySplit sep Z := by
  induction X with
  | nil =>
    simp only [List.nil_append, pySplit, if_pos rfl]
    rfl
  | cons c X2 ih =>
    by_cases hc : c = sep
    · subst hc
      simp only [List.cons_append, pySplit, List.append_eq, eq_self_iff_true,
        if_true, ih]
    · simp only [List.cons_append, pySplit, List.append_eq, if_neg hc, ih]
      rcases hsp : pySplit sep X2 with _ | ⟨h0, t0⟩
      · exact absurd hsp (pySplit_ne_nil sep X2)
      · simp

theorem pySplit_no_sep (sep : Char) (l : List Char) (h : ∀ c ∈ l, c ≠ sep) :
    pySplit sep l = [l] := by
  induction l with
  | nil => rfl
  | cons c rest ih =>
    have hc := h c (List.mem_cons_self c rest)
    simp only [pySplit, if_neg hc, ih (fun x hx => h x (List.mem_cons_of_mem c hx))]
    rfl

theorem pyJoin_pySplit (sep : Char) (l : List Char) :
    pyJoin sep (pySplit sep l) = l := by
  induction l with
  | nil => rfl
  | cons c rest ih =>
    by_cases hc : c = sep
    · subst hc
      simp only [pySplit, eq_self_iff_true, if_true]
      rcases hr : pySplit c rest with _ | ⟨h0, t0⟩
      · exact absurd hr (pySplit_ne_nil c rest)
      · have hrest : pyJoin c (pySplit c rest) = rest := ih
        rw [hr] at hrest
        calc pyJoin c ([] :: h0 :: t0) = c :: pyJoin c (h0 :: t0) := rfl
          _ = c :: rest := by rw [hrest]
    · simp only [pySplit, if_neg hc]
      rcases hr : pySplit sep rest with _ | ⟨h0, t0⟩
      · exact absurd hr (pySplit_ne_nil sep rest)
      · simp only [List.headD_cons, List.tail_cons]
        have hrest : pyJoin sep (pySplit sep rest) = rest := ih
        rw [hr] at hrest
        cases t0 with
        | nil =>
          simp only [pyJoin] at hrest ⊢
          rw [hrest]
        | cons x t1 =>
          simp only [pyJoin] at hrest ⊢
          rw [← hrest]
          simp

theorem pyJoin_append (sep : Char) (A B : List (List Char)) (hA : A ≠ [])
    (hB : B ≠ []) : pyJoin sep (A ++ B) = pyJoin sep A ++ sep :: pyJoin sep B := by
  induction A with
  | nil => exact absurd rfl hA
  | cons x A2 ih =>
    cases A2 with
    | nil =>
      rcases B with _ | ⟨y, B2⟩
      · exact absurd rfl hB
      · simp [pyJoin]
    | cons z A3 =>
      rw [List.cons_append, List.cons_append]
      rw [show pyJoin sep (x :: z :: (A3 ++ B)) = x ++ sep :: pyJoin sep (z :: (A3 ++ B))
        from rfl]
      rw [show pyJoin sep (x :: z :: A3) = x ++ sep :: pyJoin sep (z :: A3) from rfl]
      rw [show (z :: (A3 ++ B)) = (z :: A3) ++ B from by rw [List.cons_append]]
      rw [ih (List.cons_ne_nil z A3)]
      simp

theorem getD_append_two {α : Type} (L : List α) (x y d : α) :
    (L ++ [x, y]).getD L.length d = x := by
  induction L with
  | nil => rfl
  | cons a t ih => simpa using ih

theorem set_append_two {α : Type} (L : List α) (x y v : α) :
    (L ++ [x, y]).set L.length v = L ++ [v, y] := by
  induction L with
  | nil => rfl
  | cons a t ih =>
    simp only [List.cons_append, List.length_cons, List.set_cons_succ, ih]

theorem takeWhile_eq_self_of_all {p : Char → Bool} (l : List Char)
    (h : ∀ c ∈ l, p c = true) : l.takeWhile p = l := by
  induction l with
  | nil => rfl
  | cons c rest ih =>
    rw [List.takeWhile_cons, if_pos (h c (List.mem_cons_self c rest)),
      ih (fun x hx => h x (List.mem_cons_of_mem c hx))]

theorem takeWhile_append_stop {p : Char → Bool} (A : List Char) (a : Char)
    (R : List Char) (hA : ∀ c ∈ A, p c = true) (ha : p a = false) :
    (A ++ a :: R).takeWhile p = A := by
  induction A with
  | nil =>
    rw [List.nil_append, List.takeWhile_cons, if_neg (by rw [ha]; simp)]
  | cons c A2 ih =>
    rw [List.cons_append, List.takeWhile_cons,
      if_pos (hA c (List.mem_cons_self c A2)),
      ih (fun x hx => hA x (List.mem_cons_of_mem c hx))]

theorem dropWhile_append_stop {p : Char → Bool} (A : List Char) (a : Char)
    (R : List Char) (hA : ∀ c ∈ A, p c = true) (ha : p a = false) :
    (A ++ a :: R).dropWhile p = a :: R := by
  induction A with
  | nil =>
    rw [List.nil_append, List.dropWhile_cons, if_neg (by rw [ha]; simp)]
  | cons c A2 ih =>
    rw [List.cons_append, List.dropWhile_cons,
      if_pos (hA c (List.mem_cons_self c A2)),
      ih (fun x hx => hA x (List.mem_cons_of_mem c hx))]

theorem rstripSlashes_concat (A q : List Char) (hq : q ≠ []) (hqs : '/' ∉ q) :
    rstripSlashes ((A ++ q) ++ ['/']) = A ++ q := by
  unfold rstripSlashes
  rcases hqr : q.reverse with _ | ⟨c, qr⟩
  · exact absurd (by simpa using congrArg List.reverse hqr) hq
  · have hc : c ∈ q := by
      have h2 : c ∈ q.reverse := by rw [hqr]; exact List.mem_cons_self c qr
      simpa using h2
    have hcs : c ≠ '/' := fun h => hqs (h ▸ hc)
    rw [List.reverse_append, List.reverse_append, hqr,
      show (['/'] : List Char).reverse = ['/'] from rfl,
      show (['/'] ++ (c :: qr ++ A.reverse) : List Char)
        = '/' :: c :: (qr ++ A.reverse) from by simp]
    rw [List.dropWhile_cons, if_pos (by simp), List.dropWhile_cons,
      if_neg (by simp [hcs])]
    rw [show (c :: (qr ++ A.reverse) : List Char) = (c :: qr) ++ A.reverse from by simp,
      List.reverse_append, ← hqr, List.reverse_reverse, List.reverse_reverse]

theorem hexUpperChar_mem (i : Nat) : hexUpperChar i ∈ "0123456789ABCDEF".toList := by
  unfold hexUpperChar
  rcases Nat.lt_or_ge i 16 with h | h
  · interval_cases i <;> decide
  · rw [List.getD_eq_default]
    · decide
    · simpa using h

theorem mem_urlquote (c2 : Char) (s : List Char) (h : c2 ∈ urlquote s) :
    (isUrlSafe c2 = true ∧ c2 ∈ s) ∨ c2 = '%' ∨ c2 ∈ "0123456789ABCDEF".toList := by
  unfold urlquote at h
  rw [List.mem_flatten] at h
  obtain ⟨l, hl, hcl⟩ := h
  rw [List.mem_map] at hl
  obtain ⟨c, hcs, hqc⟩ := hl
  subst hqc
  unfold quoteChar at hcl
  by_cases hsafe : isUrlSafe c
  · rw [if_pos hsafe] at hcl
    simp only [List.mem_singleton] at hcl
    subst hcl
    exact Or.inl ⟨hsafe, hcs⟩
  · rw [if_neg hsafe] at hcl
    rw [List.mem_flatten] at hcl
    obtain ⟨l2, hl2, hcl2⟩ := hcl
    rw [List.mem_map] at hl2
    obtain ⟨b, _, hpb⟩ := hl2
    subst hpb
    simp only [percentByte, List.mem_cons, List.not_mem_nil, or_false] at hcl2
    rcases hcl2 with rfl | rfl | rfl
    · exact Or.inr (Or.inl rfl)
    · exact Or.inr (Or.inr (hexUpperChar_mem _))
    · exact Or.inr (Or.inr (hexUpperChar_mem _))

theorem urlquote_no_slash (s : List Char) (hs : '/' ∉ s) : '/' ∉ urlquote s := by
  intro h
  rcases mem_urlquote _ _ h with ⟨_, hmem⟩ | h2 | h3
  · exact hs hmem
  · exact absurd h2 (by decide)
  · exact absurd h3 (by decide)

theorem urlquote_no_qmark (s : List Char) : '?' ∉ urlquote s := by
  intro h
  rcases mem_urlquote _ _ h with ⟨hsafe, _⟩ | h2 | h3
  · exact absurd hsafe (by decide)
  · exact absurd h2 (by decide)
  · exact absurd h3 (by decide)

theorem urlquote_no_hash (s : List Char) : '#' ∉ urlquote s := by
  intro h
  rcases mem_urlquote _ _ h with ⟨hsafe, _⟩ | h2 | h3
  · exact absurd hsafe (by decide)
  · exact absurd h2 (by decide)
  · exact absurd h3 (by decide)

theorem quoteChar_ne_nil (c : Char) : quoteChar c ≠ [] := by
  unfold quoteChar
  split
  · simp
  · rcases h0 : utf8Bytes c with _ | ⟨b0, bs2⟩
    · exact absurd h0 (utf8Bytes_ne_nil c)
    · simp [percentByte]

theorem urlquote_ne_nil (s : List Char) (hs : s ≠ []) : urlquote s ≠ [] := by
  rcases s with _ | ⟨c, t⟩
  · exact absurd rfl hs
  · unfold urlquote
    simp only [List.map_cons, List.flatten_cons]
    intro h
    rcases List.append_eq_nil.mp h with ⟨h1, _⟩
    exact quoteChar_ne_nil c h1

/-- C8: for every identifier containing a colon (and, being a single path
segment, no slash), embedding it with a trailing slash as the last segment
of an http URI, percent-quoting the segment with `urlquote_id` and then
extracting and unquoting it with `parse_id_from_uri` returns the original
identifier — percent-encode followed by percent-decode is a true inverse
on the colon (and on every other character of the identifier, Unicode
included).  `host` and `pre` are the authority and leading path of the URI;
they only need to be free of the URL metacharacters that would change
which segment is last. -/
theorem urlquote_parse_id_round_trip (host pre id : List Char)
    (hid_colon : ':' ∈ id) (hid_slash : '/' ∉ id)
    (hhost : ∀ c ∈ host, c ≠ '/' ∧ c ≠ '?' ∧ c ≠ '#')
    (hpre : ∀ c ∈ pre, c ≠ '?' ∧ c ≠ '#') :
    parse_id_from_uri (urlquote_id
      ("http://".toList ++ host ++ ['/'] ++ pre ++ ['/'] ++ id ++ ['/'])) = id := by
  set P : List Char := "http://".toList ++ host ++ ['/'] ++ pre with hP
  set qid : List Char := urlquote id with hqid
  have hid_nonnil : id ≠ [] := fun h => by rw [h] at hid_colon; simp at hid_colon
  have hqid_nonnil : qid ≠ [] := urlquote_ne_nil id hid_nonnil
  have hqid_slash : '/' ∉ qid := urlquote_no_slash id hid_slash
  have hqid_q : '?' ∉ qid := urlquote_no_qmark id
  have hqid_h : '#' ∉ qid := urlquote_no_hash id
  have huri : P ++ ['/'] ++ id ++ ['/'] = P ++ '/' :: (id ++ ['/']) := by simp
  rw [huri]
  -- encoding side: split, quote the second-to-last piece, re-join
  have hsplit_id : pySplit '/' id = [id] :=
    pySplit_no_sep '/' id (fun c hc heq => hid_slash (heq ▸ hc))
  have hsplit_qid : pySplit '/' qid = [qid] :=
    pySplit_no_sep '/' qid (fun c hc heq => hqid_slash (heq ▸ hc))
  set L := pySplit '/' P with hL
  have hLnil : L ≠ [] := pySplit_ne_nil '/' P
  have hparts : pySplit '/' (P ++ '/' :: (id ++ ['/'])) = L ++ [id, []] := by
    rw [pySplit_append_sep]
    congr 1
    rw [show (id ++ ['/'] : List Char) = id ++ '/' :: [] from rfl,
      pySplit_append_sep, hsplit_id]
    rfl
  have hlen : (L ++ [id, []]).length - 2 = L.length := by simp
  have hget : (L ++ [id, []]).getD ((L ++ [id, []]).length - 2) [] = id := by
    rw [hlen]
    exact getD_append_two L id [] []
  have hquoted : urlquote_id (P ++ '/' :: (id ++ ['/'])) = P ++ '/' :: (qid ++ ['/']) := by
    unfold urlquote_id
    rw [hparts]
    dsimp only
    rw [hget, hlen]
    rw [if_pos (by
      simp only [Bool.and_eq_true, decide_eq_true_eq]
      refine ⟨by simp, List.elem_iff.mpr hid_colon⟩)]
    rw [set_append_two, ← hqid,
      pyJoin_append '/' L [qid, []] hLnil (by simp),
      hL, pyJoin_pySplit]
    rfl
  rw [hquoted]
  -- decoding side
  have hhttp7 : ("http://".toList : List Char) = "http".toList ++ ':' :: '/' :: '/' :: [] := rfl
  have hfree : ∀ x : Char, x ∉ ("http://".toList : List Char) →
      (∀ c ∈ host, c ≠ x) → (∀ c ∈ pre, c ≠ x) → x ∉ qid → x ≠ '/' →
      ∀ c ∈ P ++ '/' :: (qid ++ ['/']), c ≠ x := by
    intro x hx1 hx2 hx3 hx4 hx5 c hc heq
    subst heq
    rcases List.mem_append.mp hc with h | h
    · rw [hP] at h
      rcases List.mem_append.mp h with h | h
      · rcases List.mem_append.mp h with h | h
        · rcases List.mem_append.mp h with h | h
          · exact hx1 h
          · exact hx2 _ h rfl
        · rw [List.mem_singleton] at h
          exact hx5 h
      · exact hx3 _ h rfl
    · rcases List.mem_cons.mp h with h | h
      · exact hx5 h
      · rcases List.mem_append.mp h with h | h
        · exact hx4 h
        · rw [List.mem_singleton] at h
          exact hx5 h
  have hnohash : ∀ c ∈ P ++ '/' :: (qid ++ ['/']), c ≠ '#' :=
    hfree '#' (by decide) (fun c hc => (hhost c hc).2.2) (fun c hc => (hpre c hc).2)
      hqid_h (by decide)
  have hnoq : ∀ c ∈ P ++ '/' :: (qid ++ ['/']), c ≠ '?' :=
    hfree '?' (by decide) (fun c hc => (hhost c hc).2.1) (fun c hc => (hpre c hc).1)
      hqid_q (by decide)
  have hshape : P ++ '/' :: (qid ++ ['/']) =
      "http".toList ++ ':' :: '/' :: '/' ::
        (host ++ '/' :: (pre ++ '/' :: (qid ++ ['/']))) := by
    rw [hP, hhttp7]
    simp
  set T : List Char := host ++ '/' :: (pre ++ '/' :: (qid ++ ['/'])) with hT
  have h1 : urlparseNoFrag (P ++ '/' :: (qid ++ ['/'])) = P ++ '/' :: (qid ++ ['/']) := by
    unfold urlparseNoFrag
    exact takeWhile_eq_self_of_all _ (fun c hc => decide_eq_true (hnohash c hc))
  have h2 : urlparseAfterScheme ("http".toList ++ ':' :: ('/' :: '/' :: T))
      = '/' :: '/' :: T := by
    unfold urlparseAfterScheme
    rw [takeWhile_append_stop _ ':' _ (by decide) (by decide),
      dropWhile_append_stop _ ':' _ (by decide) (by decide)]
    rw [if_pos (by
      rw [show (decide ((':' :: '/' :: '/' :: T : List Char) ≠ [])) = true
        from decide_eq_true (List.cons_ne_nil _ _)]
      decide)]
    rfl
  have h3 : urlparseAfterNetloc ('/' :: '/' :: T) = '/' :: (pre ++ '/' :: (qid ++ ['/'])) := by
    unfold urlparseAfterNetloc
    rw [if_pos (show ('/' :: '/' :: T : List Char).take 2 = ['/', '/'] from rfl)]
    rw [show ('/' :: '/' :: T : List Char).drop 2 = T from rfl, hT]
    exact dropWhile_append_stop _ '/' _
      (fun c hc => by
        have hc2 := (hhost c hc).1
        have hc3 := (hhost c hc).2.1
        simp [hc2, hc3])
      (by decide)
  have hpath : urlparsePath (P ++ '/' :: (qid ++ ['/'])) =
      '/' :: (pre ++ '/' :: (qid ++ ['/'])) := by
    unfold urlparsePath
    rw [h1, hshape, h2, h3]
    refine takeWhile_eq_self_of_all _ (fun c hc => ?_)
    have hcm : c ∈ P ++ '/' :: (qid ++ ['/']) := by
      rw [hshape]
      refine List.mem_append.mpr (Or.inr ?_)
      refine List.mem_cons.mpr (Or.inr (List.mem_cons.mpr (Or.inr
        (List.mem_cons.mpr (Or.inr ?_)))))
      rw [hT]
      exact List.mem_append.mpr (Or.inr hc)
    exact decide_eq_true (hnoq c hcm)
  rw [parse_id_from_uri, if_pos (by
    rw [hshape]
    rw [show ("http".toList ++ ':' :: '/' :: '/' ::
        (host ++ '/' :: (pre ++ '/' :: (qid ++ ['/']))) : List Char)
      = 'h' :: 't' :: 't' :: 'p' :: ':' :: '/' :: '/' ::
        (host ++ '/' :: (pre ++ '/' :: (qid ++ ['/']))) from rfl]
    rfl)]
  rw [hpath]
  have hrs : rstripSlashes ('/' :: (pre ++ '/' :: (qid ++ ['/']))) =
      ('/' :: pre ++ ['/']) ++ qid := by
    rw [show ('/' :: (pre ++ '/' :: (qid ++ ['/'])) : List Char)
      = (('/' :: pre ++ ['/']) ++ qid) ++ ['/'] from by simp]
    exact rstripSlashes_concat _ _ hqid_nonnil hqid_slash
  rw [hrs]
  rw [show (('/' :: pre ++ ['/']) ++ qid : List Char)
    = ('/' :: pre) ++ '/' :: qid from by simp]
  rw [pySplit_append_sep, hsplit_qid, List.getLastD_concat]
  exact pyUnquote_urlquote id

/-- Witness for `urlquote_parse_id_round_trip`: the docstring example id
`tprek:20879` embedded under `http://127.0.0.1:8000/v0.1/place/` survives
the quote/parse round trip. -/
theorem urlquote_parse_id_round_trip_witness :
    parse_id_from_uri (urlquote_id
      ("http://".toList ++ "127.0.0.1:8000".toList ++ ['/'] ++ "v0.1/place".toList
        ++ ['/'] ++ "tprek:20879".toList ++ ['/'])) = "tprek:20879".toList :=
  urlquote_parse_id_round_trip "127.0.0.1:8000".toList "v0.1/place".toList
    "tprek:20879".toList (by decide) (by decide) (by decide) (by decide)
